import Mathlib

/-!
Verification of the discordgo rate limiter (ratelimit.go).

Shallow embedding conventions:
* Instants and durations are `Int` nanoseconds (Go stores the shared global
  throttle as `UnixNano` in an `int64`; `time.Millisecond = 10^6 ns`,
  `time.Second = 10^9 ns`).  The zero `time.Time` value is modelled as `0`.
* Go pointers to `customRateLimit` records are modelled as indices into an
  append-only arena (`ruleArena`); the ordered slice
  `RateLimiter.customRateLimits` holds the indices in registration order, and
  a `Bucket` holds an optional index.  Mutating a record through a pointer is
  `List.set` on the arena, which every holder of the index observes.
* The `map[string]*Bucket` registry is an association list; writing through
  the bucket pointer is writing the entry back under its key.
* `sync.Mutex` admission (`b.Lock` in `LockBucket`, the deferred `b.Unlock`
  in `Release`) is modelled by the boolean field `slotHeld`; sleeping is
  modelled by returning the instant at which the call returns.
* Go `int` / `int64` values are modelled as unbounded `Int` (no claim here
  exercises wrap-around); `strconv.ParseInt` range checks are kept explicit.
-/

deriving instance DecidableEq for Except

namespace Discordgo

/-- Nanoseconds in one millisecond (`time.Millisecond`). -/
def msNs : Int := 1000000

/-- Nanoseconds in one second (`time.Second`). -/
def secNs : Int := 1000000000

/-- Model of `customRateLimit` from ratelimit.go: suffix match pattern,
request quota per cycle, and cycle duration (ns). -/
structure customRateLimit where
  suffix : String
  requests : Int
  reset : Int
deriving DecidableEq, Repr

/-- Model of `Bucket` from ratelimit.go.  `customRateLimit` is an optional
arena index (Go: a possibly nil pointer); `slotHeld` models the state of the
admission mutex. -/
structure Bucket where
  Key : String
  remaining : Int
  limit : Int
  reset : Int
  lastReset : Int
  customRateLimit : Option Nat
  slotHeld : Bool
deriving DecidableEq, Repr

/-- Model of `RateLimiter` from ratelimit.go.  `global` is the shared
global-throttle instant (UnixNano, Go: `*int64` referenced by every bucket);
`ruleArena` is the pointer arena for custom rules and `customRateLimits`
the registration-ordered list of live rule indices. -/
structure RateLimiter where
  global : Int
  buckets : List (String × Bucket)
  globalRateLimit : Int
  ruleArena : List customRateLimit
  customRateLimits : List Nat
deriving DecidableEq, Repr

/-- Model of `NewRatelimiter`: empty registry, zero global throttle, no
custom rules. -/
def NewRatelimiter : RateLimiter :=
  { global := 0, buckets := [], globalRateLimit := 0, ruleArena := [], customRateLimits := [] }

/-- Dereference a rule pointer (arena index).  In every state reachable
through the API the index is in bounds, so the default is never hit. -/
def getRuleA (arena : List customRateLimit) (i : Nat) : customRateLimit :=
  arena.getD i { suffix := "", requests := 0, reset := 0 }

/-- Model of Go `strings.HasSuffix`. -/
def goHasSuffix (s suffix : String) : Bool :=
  List.isSuffixOf suffix.data s.data

/-- Decimal digit value of a character, `none` for a non-digit. -/
def digitVal (c : Char) : Option Nat :=
  if 48 ≤ c.toNat ∧ c.toNat ≤ 57 then some (c.toNat - 48) else none

/-- Accumulate the decimal value of a digit string, failing on a non-digit. -/
def decValueAux (acc : Nat) : List Char → Option Nat
  | [] => some acc
  | c :: cs =>
    match digitVal c with
    | some d => decValueAux (acc * 10 + d) cs
    | none => none

/-- Model of Go `strconv.ParseInt(s, 10, bitSize)`: optional sign, at least
one decimal digit, signed range check for the given bit size.  The code under
verification only inspects success against failure, never the error text. -/
def goParseInt (s : String) (bitSize : Nat) : Except String Int :=
  match s.data with
  | [] => Except.error "invalid syntax"
  | c :: cs =>
    let signDigits : Bool × List Char :=
      if c = '-' then (true, cs) else if c = '+' then (false, cs) else (false, c :: cs)
    match signDigits.2 with
    | [] => Except.error "invalid syntax"
    | d :: ds =>
      match decValueAux 0 (d :: ds) with
      | none => Except.error "invalid syntax"
      | some n =>
        let v : Int := if signDigits.1 then -(n : Int) else (n : Int)
        if v < -(2 ^ (bitSize - 1) : Int) ∨ (2 ^ (bitSize - 1) : Int) - 1 < v then
          Except.error "value out of range"
        else Except.ok v

/-- Model of Go stdlib `net/http.ParseTime` (an external collaborator, not
part of this repository): an HTTP `Date` header value is represented
abstractly by the decimal string of its Unix-seconds instant; parsing yields
that instant in nanoseconds, and any string not of that form is a parse
error. -/
def parseHTTPTime (s : String) : Except String Int :=
  match goParseInt s 64 with
  | Except.ok sec => Except.ok (sec * secNs)
  | Except.error _ => Except.error "cannot parse HTTP date"

/-- The header values `Release` reads through `http.Header.Get`: each field
holds the first value of the corresponding header, `""` when the header is
absent (exactly what `Get` returns for a missing key). -/
structure HttpHeader where
  xRateLimitRemaining : String
  xRateLimitReset : String
  xRateLimitGlobal : String
  retryAfter : String
  date : String
deriving DecidableEq, Repr

/-- Outcome of `Release`: the bucket after the call, the value of the shared
global-throttle cell after the call, and the returned error if any.  Go
mutates through pointers, so state updates made before an error persist. -/
structure ReleaseResult where
  bucket : Bucket
  global : Int
  err : Option String
deriving DecidableEq, Repr

/-- The deferred `b.Unlock()`: the admission slot is released on every exit
path of `Release`. -/
def unlockB (b : Bucket) : Bucket :=
  { b with slotHeld := false }

/-- The retry-after / reset part of the header branch of `Bucket.Release`
(ratelimit.go lines 211-243): `Retry-After` (milliseconds) wins and goes to
the shared global cell when `X-RateLimit-Global` accompanies it, to the
bucket reset otherwise; else `X-RateLimit-Reset` (epoch seconds) is
interpreted against the response `Date`, plus a 250 ms margin. -/
def releaseHeaderUpdate (b : Bucket) (global : Int) (h : HttpHeader) (now : Int) :
    Except String (Bucket × Int) :=
  if h.retryAfter ≠ "" then
    match goParseInt h.retryAfter 64 with
    | Except.error e => Except.error e
    | Except.ok parsedAfter =>
      let resetAt := now + parsedAfter * msNs
      if h.xRateLimitGlobal ≠ "" then Except.ok (b, resetAt)
      else Except.ok ({ b with reset := resetAt }, global)
  else if h.xRateLimitReset ≠ "" then
    match parseHTTPTime h.date with
    | Except.error e => Except.error e
    | Except.ok discordTime =>
      match goParseInt h.xRateLimitReset 64 with
      | Except.error e => Except.error e
      | Except.ok unix =>
        let delta := unix * secNs - discordTime + 250 * msNs
        Except.ok ({ b with reset := now + delta }, global)
  else Except.ok (b, global)

/-- The `X-RateLimit-Remaining` part of the header branch of
`Bucket.Release` (ratelimit.go lines 246-252): when present it is parsed
with bit size 32 and overwrites `remaining`. -/
def releaseRemainingUpdate (b : Bucket) (h : HttpHeader) : Except String Bucket :=
  if h.xRateLimitRemaining ≠ "" then
    match goParseInt h.xRateLimitRemaining 32 with
    | Except.error e => Except.error e
    | Except.ok parsedRemaining => Except.ok { b with remaining := parsedRemaining }
  else Except.ok b

/-- Model of `Bucket.Release` (ratelimit.go lines 178-255).  `arena` is the
rule arena and `global` the current value of the shared global-throttle cell
the bucket points at; `now` the current instant.  The deferred unlock runs on
every path, and updates made before a parse error persist. -/
def Release (arena : List customRateLimit) (b : Bucket) (global : Int)
    (headers : Option HttpHeader) (now : Int) : ReleaseResult :=
  match b.customRateLimit with
  | some i =>
    let rl := getRuleA arena i
    let b1 :=
      if now - b.lastReset ≥ rl.reset then
        { b with remaining := rl.requests - 1, lastReset := now }
      else b
    let b2 := if b1.remaining < 1 then { b1 with reset := now + rl.reset } else b1
    { bucket := unlockB b2, global := global, err := none }
  | none =>
    match headers with
    | none => { bucket := unlockB b, global := global, err := none }
    | some h =>
      match releaseHeaderUpdate b global h now with
      | Except.error e => { bucket := unlockB b, global := global, err := some e }
      | Except.ok (b1, g1) =>
        match releaseRemainingUpdate b1 h with
        | Except.error e => { bucket := unlockB b1, global := g1, err := some e }
        | Except.ok b2 => { bucket := unlockB b2, global := g1, err := none }

/-- First rule index in `l` (registration order) whose suffix matches `key`,
as the creation scan of `getBucket` does (ratelimit.go lines 126-131). -/
def firstMatchingRule (arena : List customRateLimit) (key : String) : List Nat → Option Nat
  | [] => none
  | i :: rest =>
    if goHasSuffix key (getRuleA arena i).suffix then some i
    else firstMatchingRule arena key rest

/-- Map write `r.buckets[key] = b` on the association-list registry. -/
def updateAssoc : List (String × Bucket) → String → Bucket → List (String × Bucket)
  | [], key, b => [(key, b)]
  | kb :: rest, key, b =>
    if kb.1 = key then (key, b) :: rest else kb :: updateAssoc rest key b

/-- Model of `RateLimiter.getBucket` (ratelimit.go lines 111-135): return the
registered bucket, or create one with `remaining = 1`, zero reset instants,
and the first registration-order rule whose suffix matches the key. -/
def getBucket (r : RateLimiter) (key : String) : RateLimiter × Bucket :=
  match r.buckets.lookup key with
  | some b => (r, b)
  | none =>
    let b : Bucket :=
      { Key := key, remaining := 1, limit := 0, reset := 0, lastReset := 0,
        customRateLimit := firstMatchingRule r.ruleArena key r.customRateLimits,
        slotHeld := false }
    ({ r with buckets := r.buckets ++ [(key, b)] }, b)

/-- Model of `RateLimiter.LockBucket` (ratelimit.go lines 138-159).  Returns
the limiter after the call, the bucket handle (with the slot acquired and
`remaining` pre-decremented), and the instant at which the call returns:
after sleeping until the bucket reset when `remaining < 1` and the reset is
in the future, then until the shared global-throttle instant when that is
still in the future. -/
def LockBucket (r : RateLimiter) (bucketID : String) (now : Int) :
    RateLimiter × Bucket × Int :=
  let p := getBucket r bucketID
  let r1 := p.1
  let b := p.2
  let b1 := { b with slotHeld := true }
  let t1 := if b1.remaining < 1 ∧ now < b1.reset then b1.reset else now
  let t2 := if t1 < r1.global then r1.global else t1
  let b2 := { b1 with remaining := b1.remaining - 1 }
  ({ r1 with buckets := updateAssoc r1.buckets bucketID b2 }, b2, t2)

/-- First rule index with exactly the given suffix, as the upsert loop of
`SetCustomRateLimit` finds it (ratelimit.go lines 49-56). -/
def findRuleIdx (arena : List customRateLimit) : List Nat → String → Option Nat
  | [], _ => none
  | i :: rest, s =>
    if (getRuleA arena i).suffix = s then some i else findRuleIdx arena rest s

/-- The attach scan of `SetCustomRateLimit` (ratelimit.go lines 69-75):
every bucket whose key ends with the suffix is pointed at rule `i`,
overwriting any previous attachment. -/
def attachMatching (bs : List (String × Bucket)) (i : Nat) (s : String) :
    List (String × Bucket) :=
  bs.map fun kb =>
    if goHasSuffix kb.2.Key s then (kb.1, { kb.2 with customRateLimit := some i }) else kb

/-- Model of `RateLimiter.SetCustomRateLimit` (ratelimit.go lines 43-77):
upsert by suffix — an existing rule is mutated in place through its pointer
(arena index), otherwise a new rule is appended — then every bucket whose
key ends with the suffix is (re)attached to the rule. -/
def SetCustomRateLimit (r : RateLimiter) (s : String) (requests reset : Int) :
    RateLimiter :=
  match findRuleIdx r.ruleArena r.customRateLimits s with
  | some i =>
    let oldRule := getRuleA r.ruleArena i
    { r with
      ruleArena := r.ruleArena.set i { oldRule with requests := requests, reset := reset },
      buckets := attachMatching r.buckets i oldRule.suffix }
  | none =>
    let iNew := r.ruleArena.length
    { r with
      ruleArena := r.ruleArena ++ [{ suffix := s, requests := requests, reset := reset }],
      customRateLimits := r.customRateLimits ++ [iNew],
      buckets := attachMatching r.buckets iNew s }

/-- Remove the first rule index whose rule has the given suffix, as the
removal loop of `RemoveCustomRateLimit` does (ratelimit.go lines 85-92);
`none` when no rule matches. -/
def removeFirst (arena : List customRateLimit) (s : String) : List Nat → Option (List Nat)
  | [] => none
  | i :: rest =>
    if (getRuleA arena i).suffix = s then some rest
    else
      match removeFirst arena s rest with
      | some rest2 => some (i :: rest2)
      | none => none

/-- The suffix of the rule a bucket is attached to, `none` when detached. -/
def bucketRuleSuffix (arena : List customRateLimit) (b : Bucket) : Option String :=
  b.customRateLimit.map fun i => (getRuleA arena i).suffix

/-- Model of `RateLimiter.RemoveCustomRateLimit` (ratelimit.go lines
81-108): error when no rule has the suffix (nothing is mutated on that
path); otherwise the first matching rule leaves the list and every bucket
whose attached rule has that suffix is detached. -/
def RemoveCustomRateLimit (r : RateLimiter) (s : String) : Except String RateLimiter :=
  match removeFirst r.ruleArena s r.customRateLimits with
  | none => Except.error "err: custom rate limit not found"
  | some newList =>
    Except.ok
      { r with
        customRateLimits := newList,
        buckets := r.buckets.map fun kb =>
          match kb.2.customRateLimit with
          | some i =>
            if (getRuleA r.ruleArena i).suffix = s then
              (kb.1, { kb.2 with customRateLimit := none })
            else kb
          | none => kb }

/-! Helper lemmas shared by the claim theorems. -/

theorem if_lt_eq_max (a b : Int) : (if a < b then b else a) = max a b := by
  rw [max_def]
  split <;> split <;> omega

theorem getBucket_global (r : RateLimiter) (key : String) :
    (getBucket r key).1.global = r.global := by
  unfold getBucket
  split <;> rfl

theorem lookup_updateAssoc (bs : List (String × Bucket)) (k : String) (b : Bucket) :
    (updateAssoc bs k b).lookup k = some b := by
  induction bs with
  | nil => simp [updateAssoc, List.lookup]
  | cons kb rest ih =>
    by_cases h : kb.1 = k
    · simp [updateAssoc, h, List.lookup]
    · have hk : (k == kb.1) = false := beq_eq_false_iff_ne.mpr fun he => h he.symm
      simp [updateAssoc, h, List.lookup, hk, ih]

theorem releaseRemainingUpdate_ok (b : Bucket) (h : HttpHeader) (b2 : Bucket)
    (hok : releaseRemainingUpdate b h = Except.ok b2) :
    b2 = b ∨ ∃ v, b2 = { b with remaining := v } := by
  unfold releaseRemainingUpdate at hok
  split at hok
  · cases hgp : goParseInt h.xRateLimitRemaining 32 with
    | error e => rw [hgp] at hok; cases hok
    | ok v => rw [hgp] at hok; cases hok; exact Or.inr ⟨v, rfl⟩
  · cases hok; exact Or.inl rfl

theorem Release_ok_fields (arena : List customRateLimit) (b : Bucket) (g : Int)
    (h : HttpHeader) (now : Int) (b1 : Bucket) (g1 : Int)
    (hc : b.customRateLimit = none)
    (h1 : releaseHeaderUpdate b g h now = Except.ok (b1, g1)) :
    (Release arena b g (some h) now).global = g1 ∧
    (Release arena b g (some h) now).bucket.reset = b1.reset := by
  simp only [Release, hc, h1]
  cases hrem : releaseRemainingUpdate b1 h with
  | error e => simp [unlockB]
  | ok b2 =>
    rcases releaseRemainingUpdate_ok b1 h b2 hrem with rfl | ⟨v, rfl⟩ <;> simp [unlockB]

/-! The claim theorems. -/

/-- C1: every `LockBucket(key)` call returns at instant
`max (bucket reset when remaining < 1 and the reset is in the future,
otherwise now) (shared global-throttle instant)` — i.e. it first waits out
the bucket reset when it ran out of calls, then the global throttle when
that is still in the future — and in every case the returned (and
registered) bucket has `remaining` decremented by exactly one. -/
theorem C1_LockBucket_gates_and_decrements (r : RateLimiter) (key : String) (now : Int) :
    (LockBucket r key now).2.1.remaining = (getBucket r key).2.remaining - 1 ∧
    (LockBucket r key now).1.buckets.lookup key = some (LockBucket r key now).2.1 ∧
    (LockBucket r key now).2.2 =
      max (if (getBucket r key).2.remaining < 1 ∧ now < (getBucket r key).2.reset
           then (getBucket r key).2.reset else now)
          r.global := by
  refine ⟨rfl, ?_, ?_⟩
  · exact lookup_updateAssoc _ _ _
  · unfold LockBucket
    dsimp only
    rw [getBucket_global]
    exact if_lt_eq_max _ _

/-- C3: `Release` on a bucket with an attached custom rule ignores the
headers argument entirely, returns no error, leaves the shared global
instant alone, and updates the fields exactly as the claim states: a new
cycle starts (remaining := requests − 1, lastReset := now) when
`now − lastReset ≥ rule.reset`, and `reset := now + rule.reset` exactly
when the resulting remaining is below 1; otherwise the fields keep their
values. -/
theorem C3_Release_custom_rule (arena : List customRateLimit) (b : Bucket) (g : Int)
    (headers headers2 : Option HttpHeader) (now : Int) (i : Nat)
    (hc : b.customRateLimit = some i) :
    Release arena b g headers now = Release arena b g headers2 now ∧
    (Release arena b g headers now).err = none ∧
    (Release arena b g headers now).global = g ∧
    (Release arena b g headers now).bucket.remaining =
      (if (getRuleA arena i).reset ≤ now - b.lastReset
       then (getRuleA arena i).requests - 1 else b.remaining) ∧
    (Release arena b g headers now).bucket.lastReset =
      (if (getRuleA arena i).reset ≤ now - b.lastReset then now else b.lastReset) ∧
    (Release arena b g headers now).bucket.reset =
      (if (if (getRuleA arena i).reset ≤ now - b.lastReset
           then (getRuleA arena i).requests - 1 else b.remaining) < 1
       then now + (getRuleA arena i).reset else b.reset) := by
  have hsame : Release arena b g headers now = Release arena b g headers2 now := by
    simp only [Release, hc]
  refine ⟨hsame, ?_⟩
  simp only [Release, hc, ge_iff_le, unlockB]
  split <;> split <;> simp_all

/-- C6: on a bucket with no attached custom rule, `Release` with nil
headers only releases the admission slot: remaining, reset and lastReset
(and everything else) are unchanged, the shared global instant is
untouched, and no error is returned. -/
theorem C6_Release_nil_frame (arena : List customRateLimit) (b : Bucket) (g : Int)
    (now : Int) (hc : b.customRateLimit = none) :
    Release arena b g none now =
      { bucket := { b with slotHeld := false }, global := g, err := none } := by
  simp [Release, hc, unlockB]

/-- C6 witness at a concrete bucket. -/
theorem C6_Release_nil_frame_witness :
    Release [] { Key := "k", remaining := 3, limit := 0, reset := 9, lastReset := 2,
                 customRateLimit := none, slotHeld := true } 5 none 100 =
      { bucket := { Key := "k", remaining := 3, limit := 0, reset := 9, lastReset := 2,
                    customRateLimit := none, slotHeld := false },
        global := 5, err := none } :=
  C6_Release_nil_frame [] _ 5 100 rfl

/-- C10: a freshly created bucket starts with `remaining = 1` and a zero
reset instant, so the first `LockBucket` on an unseen key with no active
global throttle returns at `now` (no sleep) with `remaining = 0`, and a
second lookup before any header update finds `remaining = 0`. -/
theorem C10_fresh_bucket_first_lock (r : RateLimiter) (key : String) (now : Int)
    (hnew : r.buckets.lookup key = none) (hg : r.global ≤ now) :
    (getBucket r key).2.remaining = 1 ∧
    (getBucket r key).2.reset = 0 ∧
    (LockBucket r key now).2.2 = now ∧
    (LockBucket r key now).2.1.remaining = 0 ∧
    (getBucket (LockBucket r key now).1 key).2.remaining = 0 := by
  have hb : getBucket r key =
      ({ r with buckets := r.buckets ++
          [(key, { Key := key, remaining := 1, limit := 0, reset := 0, lastReset := 0,
                   customRateLimit := firstMatchingRule r.ruleArena key r.customRateLimits,
                   slotHeld := false })] },
       { Key := key, remaining := 1, limit := 0, reset := 0, lastReset := 0,
         customRateLimit := firstMatchingRule r.ruleArena key r.customRateLimits,
         slotHeld := false }) := by
    unfold getBucket
    rw [hnew]
  constructor
  · rw [hb]
  constructor
  · rw [hb]
  have hlock : (LockBucket r key now).2.2 = now ∧ (LockBucket r key now).2.1.remaining = 0 := by
    unfold LockBucket
    rw [hb]
    dsimp only
    rw [if_neg (by omega : ¬((1 : Int) < 1 ∧ now < 0)), if_neg (by omega : ¬(now < r.global))]
    exact ⟨rfl, rfl⟩
  refine ⟨hlock.1, hlock.2, ?_⟩
  have hl : (LockBucket r key now).1.buckets.lookup key = some (LockBucket r key now).2.1 := by
    unfold LockBucket
    exact lookup_updateAssoc _ _ _
  unfold getBucket
  rw [hl]
  dsimp only
  exact hlock.2

/-- C10 witness: a fresh limiter at instant 0. -/
theorem C10_fresh_bucket_first_lock_witness :
    (getBucket NewRatelimiter "k").2.remaining = 1 ∧
    (getBucket NewRatelimiter "k").2.reset = 0 ∧
    (LockBucket NewRatelimiter "k" 0).2.2 = 0 ∧
    (LockBucket NewRatelimiter "k" 0).2.1.remaining = 0 ∧
    (getBucket (LockBucket NewRatelimiter "k" 0).1 "k").2.remaining = 0 :=
  C10_fresh_bucket_first_lock NewRatelimiter "k" 0 rfl (by decide)

/-- Concrete rule arena used by the C3 witness. -/
def arenaC3 : List customRateLimit := [{ suffix := "s", requests := 3, reset := 100 }]

/-- Concrete bucket used by the C3 witness, attached to rule 0. -/
def bC3 : Bucket :=
  { Key := "ks", remaining := 0, limit := 0, reset := 7, lastReset := 0,
    customRateLimit := some 0, slotHeld := true }

/-- Concrete headers used by the C3 witness (ignored by the custom branch). -/
def hdrC3 : HttpHeader :=
  { xRateLimitRemaining := "9", xRateLimitReset := "", xRateLimitGlobal := "",
    retryAfter := "", date := "" }

/-- C3 witness at a concrete state: rule cycle length 100, call at instant
200 with lastReset 0 starts a new cycle. -/
theorem C3_Release_custom_rule_witness :
    Release arenaC3 bC3 5 (some hdrC3) 200 = Release arenaC3 bC3 5 none 200 ∧
    (Release arenaC3 bC3 5 (some hdrC3) 200).err = none ∧
    (Release arenaC3 bC3 5 (some hdrC3) 200).global = 5 ∧
    (Release arenaC3 bC3 5 (some hdrC3) 200).bucket.remaining =
      (if (getRuleA arenaC3 0).reset ≤ 200 - bC3.lastReset
       then (getRuleA arenaC3 0).requests - 1 else bC3.remaining) ∧
    (Release arenaC3 bC3 5 (some hdrC3) 200).bucket.lastReset =
      (if (getRuleA arenaC3 0).reset ≤ 200 - bC3.lastReset then 200 else bC3.lastReset) ∧
    (Release arenaC3 bC3 5 (some hdrC3) 200).bucket.reset =
      (if (if (getRuleA arenaC3 0).reset ≤ 200 - bC3.lastReset
           then (getRuleA arenaC3 0).requests - 1 else bC3.remaining) < 1
       then 200 + (getRuleA arenaC3 0).reset else bC3.reset) :=
  C3_Release_custom_rule arenaC3 bC3 5 (some hdrC3) none 200 0 rfl

/-- C2: in the header branch (no custom rule), a present and well-formed
Retry-After header (milliseconds) yields `resetAt = now + retryAfter ms`,
stored into the shared global-throttle instant when the global flag header
accompanies it (bucket reset untouched) and into the bucket reset otherwise
(global untouched); only when Retry-After is absent and the epoch reset
header is present and well-formed together with the Date header is the
bucket reset computed as `now + (resetEpoch − responseDate) + 250 ms`. -/
theorem C2_Release_reset_sources (arena : List customRateLimit) (b : Bucket) (g : Int)
    (h : HttpHeader) (now : Int) (hc : b.customRateLimit = none) :
    (∀ v, h.retryAfter ≠ "" → goParseInt h.retryAfter 64 = Except.ok v →
      ((h.xRateLimitGlobal ≠ "" →
          (Release arena b g (some h) now).global = now + v * msNs ∧
          (Release arena b g (some h) now).bucket.reset = b.reset) ∧
       (h.xRateLimitGlobal = "" →
          (Release arena b g (some h) now).bucket.reset = now + v * msNs ∧
          (Release arena b g (some h) now).global = g))) ∧
    (∀ d u, h.retryAfter = "" → h.xRateLimitReset ≠ "" →
      parseHTTPTime h.date = Except.ok d → goParseInt h.xRateLimitReset 64 = Except.ok u →
      (Release arena b g (some h) now).bucket.reset = now + (u * secNs - d + 250 * msNs) ∧
      (Release arena b g (some h) now).global = g) := by
  constructor
  · intro v hra hv
    constructor
    · intro hgb
      have h1 : releaseHeaderUpdate b g h now = Except.ok (b, now + v * msNs) := by
        simp [releaseHeaderUpdate, hra, hv, hgb]
      exact Release_ok_fields arena b g h now b (now + v * msNs) hc h1
    · intro hgb
      have h1 : releaseHeaderUpdate b g h now =
          Except.ok ({ b with reset := now + v * msNs }, g) := by
        simp [releaseHeaderUpdate, hra, hv, hgb]
      have hf := Release_ok_fields arena b g h now _ g hc h1
      exact ⟨hf.2, hf.1⟩
  · intro d u hra hrs hd hu
    have h1 : releaseHeaderUpdate b g h now =
        Except.ok ({ b with reset := now + (u * secNs - d + 250 * msNs) }, g) := by
      simp [releaseHeaderUpdate, hra, hrs, hd, hu]
    have hf := Release_ok_fields arena b g h now _ g hc h1
    exact ⟨hf.2, hf.1⟩

/-- Concrete bucket used by the C2 witness. -/
def bC2 : Bucket :=
  { Key := "k", remaining := 1, limit := 0, reset := 11, lastReset := 0,
    customRateLimit := none, slotHeld := true }

/-- Concrete headers used by the C2 witness: Retry-After 2000 ms with the
global flag set. -/
def hdrC2 : HttpHeader :=
  { xRateLimitRemaining := "", xRateLimitReset := "3", xRateLimitGlobal := "G",
    retryAfter := "2000", date := "1" }

/-- C2 witness at a concrete state. -/
theorem C2_Release_reset_sources_witness :
    (∀ v, hdrC2.retryAfter ≠ "" → goParseInt hdrC2.retryAfter 64 = Except.ok v →
      ((hdrC2.xRateLimitGlobal ≠ "" →
          (Release [] bC2 4 (some hdrC2) 100).global = 100 + v * msNs ∧
          (Release [] bC2 4 (some hdrC2) 100).bucket.reset = bC2.reset) ∧
       (hdrC2.xRateLimitGlobal = "" →
          (Release [] bC2 4 (some hdrC2) 100).bucket.reset = 100 + v * msNs ∧
          (Release [] bC2 4 (some hdrC2) 100).global = 4))) ∧
    (∀ d u, hdrC2.retryAfter = "" → hdrC2.xRateLimitReset ≠ "" →
      parseHTTPTime hdrC2.date = Except.ok d → goParseInt hdrC2.xRateLimitReset 64 = Except.ok u →
      (Release [] bC2 4 (some hdrC2) 100).bucket.reset = 100 + (u * secNs - d + 250 * msNs) ∧
      (Release [] bC2 4 (some hdrC2) 100).global = 4) :=
  C2_Release_reset_sources [] bC2 4 hdrC2 100 rfl

/-- C4: in the header branch, whenever `Release` hits a malformed numeric
header value it returns that parse error while still releasing the
admission slot (which is released on every path), and the final state is
exactly the state at the failure point: nothing is touched when
Retry-After, the Date header, or the epoch reset header fails to parse,
and when the remaining header fails to parse the reset/global update made
beforehand is kept. -/
theorem C4_Release_parse_error_state (arena : List customRateLimit) (b : Bucket)
    (g : Int) (h : HttpHeader) (now : Int) (hc : b.customRateLimit = none) :
    (∀ hs, (Release arena b g hs now).bucket.slotHeld = false) ∧
    (∀ e, h.retryAfter ≠ "" → goParseInt h.retryAfter 64 = Except.error e →
      Release arena b g (some h) now =
        { bucket := { b with slotHeld := false }, global := g, err := some e }) ∧
    (∀ e, h.retryAfter = "" → h.xRateLimitReset ≠ "" →
      parseHTTPTime h.date = Except.error e →
      Release arena b g (some h) now =
        { bucket := { b with slotHeld := false }, global := g, err := some e }) ∧
    (∀ e d, h.retryAfter = "" → h.xRateLimitReset ≠ "" →
      parseHTTPTime h.date = Except.ok d → goParseInt h.xRateLimitReset 64 = Except.error e →
      Release arena b g (some h) now =
        { bucket := { b with slotHeld := false }, global := g, err := some e }) ∧
    (∀ e b1 g1, releaseHeaderUpdate b g h now = Except.ok (b1, g1) →
      h.xRateLimitRemaining ≠ "" → goParseInt h.xRateLimitRemaining 32 = Except.error e →
      Release arena b g (some h) now =
        { bucket := { b1 with slotHeld := false }, global := g1, err := some e }) := by
  refine ⟨?_, ?_, ?_, ?_, ?_⟩
  · intro hs
    cases hs with
    | none => simp [Release, hc, unlockB]
    | some h2 =>
      simp only [Release, hc]
      cases h1 : releaseHeaderUpdate b g h2 now with
      | error e => simp [unlockB]
      | ok p =>
        obtain ⟨b1, g1⟩ := p
        cases h2r : releaseRemainingUpdate b1 h2 <;> simp [h2r, unlockB]
  · intro e hra herr
    have h1 : releaseHeaderUpdate b g h now = Except.error e := by
      simp [releaseHeaderUpdate, hra, herr]
    simp [Release, hc, h1, unlockB]
  · intro e hra hrs hd
    have h1 : releaseHeaderUpdate b g h now = Except.error e := by
      simp [releaseHeaderUpdate, hra, hrs, hd]
    simp [Release, hc, h1, unlockB]
  · intro e d hra hrs hd hu
    have h1 : releaseHeaderUpdate b g h now = Except.error e := by
      simp [releaseHeaderUpdate, hra, hrs, hd, hu]
    simp [Release, hc, h1, unlockB]
  · intro e b1 g1 h1 hr hu
    have h2 : releaseRemainingUpdate b1 h = Except.error e := by
      simp [releaseRemainingUpdate, hr, hu]
    simp [Release, hc, h1, h2, unlockB]

/-- Concrete bucket used by the C4 witness. -/
def bC4 : Bucket :=
  { Key := "k", remaining := 2, limit := 0, reset := 11, lastReset := 0,
    customRateLimit := none, slotHeld := true }

/-- Concrete headers used by the C4 witness: a valid Retry-After followed by
a malformed remaining header. -/
def hdrC4 : HttpHeader :=
  { xRateLimitRemaining := "zz", xRateLimitReset := "", xRateLimitGlobal := "",
    retryAfter := "1000", date := "" }

/-- C4 witness at a concrete state. -/
theorem C4_Release_parse_error_state_witness :
    (∀ hs, (Release [] bC4 4 hs 100).bucket.slotHeld = false) ∧
    (∀ e, hdrC4.retryAfter ≠ "" → goParseInt hdrC4.retryAfter 64 = Except.error e →
      Release [] bC4 4 (some hdrC4) 100 =
        { bucket := { bC4 with slotHeld := false }, global := 4, err := some e }) ∧
    (∀ e, hdrC4.retryAfter = "" → hdrC4.xRateLimitReset ≠ "" →
      parseHTTPTime hdrC4.date = Except.error e →
      Release [] bC4 4 (some hdrC4) 100 =
        { bucket := { bC4 with slotHeld := false }, global := 4, err := some e }) ∧
    (∀ e d, hdrC4.retryAfter = "" → hdrC4.xRateLimitReset ≠ "" →
      parseHTTPTime hdrC4.date = Except.ok d →
      goParseInt hdrC4.xRateLimitReset 64 = Except.error e →
      Release [] bC4 4 (some hdrC4) 100 =
        { bucket := { bC4 with slotHeld := false }, global := 4, err := some e }) ∧
    (∀ e b1 g1, releaseHeaderUpdate bC4 4 hdrC4 100 = Except.ok (b1, g1) →
      hdrC4.xRateLimitRemaining ≠ "" →
      goParseInt hdrC4.xRateLimitRemaining 32 = Except.error e →
      Release [] bC4 4 (some hdrC4) 100 =
        { bucket := { b1 with slotHeld := false }, global := g1, err := some e }) :=
  C4_Release_parse_error_state [] bC4 4 hdrC4 100 rfl

/-- C5 as frozen is false on the code: with a present, well-formed
remaining header "5" but a malformed Retry-After value, `Release` returns
the Retry-After parse error before reaching the remaining header, so
`remaining` keeps its old value 0 instead of becoming 5. -/
theorem C5_remaining_overwrite_counterexample :
    goParseInt "5" 32 = Except.ok 5 ∧
    (Release [] { Key := "k", remaining := 0, limit := 0, reset := 0, lastReset := 0,
                  customRateLimit := none, slotHeld := true } 0
       (some { xRateLimitRemaining := "5", xRateLimitReset := "", xRateLimitGlobal := "",
               retryAfter := "oops", date := "" }) 7).bucket.remaining = 0 ∧
    ¬ (Release [] { Key := "k", remaining := 0, limit := 0, reset := 0, lastReset := 0,
                    customRateLimit := none, slotHeld := true } 0
        (some { xRateLimitRemaining := "5", xRateLimitReset := "", xRateLimitGlobal := "",
                retryAfter := "oops", date := "" }) 7).bucket.remaining = 5 := by
  refine ⟨rfl, rfl, ?_⟩
  decide

/-- C5 (amended): on a bucket with no custom rule and non-nil headers, when
the remaining header is present and parses and `Release` returns no error
(equivalently, no header field processed before it was malformed), the
bucket remaining equals the parsed value upon return. -/
theorem C5_remaining_overwrite (arena : List customRateLimit) (b : Bucket) (g : Int)
    (h : HttpHeader) (now : Int) (v : Int) (hc : b.customRateLimit = none)
    (hr : h.xRateLimitRemaining ≠ "")
    (hv : goParseInt h.xRateLimitRemaining 32 = Except.ok v)
    (hok : (Release arena b g (some h) now).err = none) :
    (Release arena b g (some h) now).bucket.remaining = v := by
  simp only [Release, hc] at hok ⊢
  cases h1 : releaseHeaderUpdate b g h now with
  | error e => simp [h1] at hok
  | ok p =>
    obtain ⟨b1, g1⟩ := p
    have h2 : releaseRemainingUpdate b1 h = Except.ok { b1 with remaining := v } := by
      simp [releaseRemainingUpdate, hr, hv]
    simp [h1, h2, unlockB]

/-- C5 witness: remaining header "5" on a bucket holding 0, all other
headers absent. -/
theorem C5_remaining_overwrite_witness :
    (Release [] { Key := "k", remaining := 0, limit := 0, reset := 0, lastReset := 0,
                  customRateLimit := none, slotHeld := true } 0
       (some { xRateLimitRemaining := "5", xRateLimitReset := "", xRateLimitGlobal := "",
               retryAfter := "", date := "" }) 7).bucket.remaining = 5 :=
  C5_remaining_overwrite [] _ 0 _ 7 5 rfl (by decide) (by decide) (by decide)

theorem removeFirst_none_iff (arena : List customRateLimit) (s : String) (l : List Nat) :
    removeFirst arena s l = none ↔ ∀ i ∈ l, (getRuleA arena i).suffix ≠ s := by
  induction l with
  | nil => simp [removeFirst]
  | cons i rest ih =>
    by_cases hi : (getRuleA arena i).suffix = s
    · simp [removeFirst, hi]
    · simp only [removeFirst, if_neg hi]
      cases hr : removeFirst arena s rest with
      | some rest2 =>
        rw [hr] at ih
        simp only [List.mem_cons]
        constructor
        · intro hcontra
          exact Option.noConfusion hcontra
        · intro hall
          exact Option.noConfusion (ih.mpr fun j hj => hall j (Or.inr hj))
      | none =>
        rw [hr] at ih
        simp only [List.mem_cons]
        constructor
        · intro _ j hj
          rcases hj with rfl | hj
          · exact hi
          · exact ih.mp rfl j hj
        · intro _
          trivial

theorem removeFirst_some (arena : List customRateLimit) (s : String) :
    ∀ l l2, removeFirst arena s l = some l2 →
      ∃ l1 i rest, l = l1 ++ i :: rest ∧ (getRuleA arena i).suffix = s ∧
        (∀ j ∈ l1, (getRuleA arena j).suffix ≠ s) ∧ l2 = l1 ++ rest := by
  intro l
  induction l with
  | nil => intro l2 hcontra; exact Option.noConfusion hcontra
  | cons i rest ih =>
    intro l2 hsome
    by_cases hi : (getRuleA arena i).suffix = s
    · simp only [removeFirst, if_pos hi] at hsome
      cases hsome
      exact ⟨[], i, rest, rfl, hi, by simp, rfl⟩
    · simp only [removeFirst, if_neg hi] at hsome
      cases hr : removeFirst arena s rest with
      | some rest2 =>
        rw [hr] at hsome
        cases hsome
        obtain ⟨l1, j, tl, hsplit, hj, hl1, hrest2⟩ := ih rest2 hr
        refine ⟨i :: l1, j, tl, by simp [hsplit], hj, ?_, by simp [hrest2]⟩
        intro k hk
        rcases List.mem_cons.mp hk with rfl | hk
        · exact hi
        · exact hl1 k hk
      | none =>
        rw [hr] at hsome
        exact Option.noConfusion hsome

theorem detach_pointwise (arena : List customRateLimit) (s : String) (kb : String × Bucket) :
    (match kb.2.customRateLimit with
     | some i =>
       if (getRuleA arena i).suffix = s then (kb.1, { kb.2 with customRateLimit := none })
       else kb
     | none => kb) =
    (if bucketRuleSuffix arena kb.2 = some s
     then (kb.1, { kb.2 with customRateLimit := none }) else kb) := by
  cases hci : kb.2.customRateLimit with
  | none => simp [bucketRuleSuffix, hci]
  | some i =>
    by_cases hs : (getRuleA arena i).suffix = s
    · simp [bucketRuleSuffix, hci, hs]
    · simp [bucketRuleSuffix, hci, hs]

/-- C7: `RemoveCustomRateLimit(suffix)` errors exactly when no registered
rule has the suffix (mutating nothing on that path), and on success removes
exactly the first rule with that suffix from the registration list, keeps
the arena and the global instant, and detaches exactly the buckets whose
attached rule has that suffix, leaving every other bucket untouched. -/
theorem C7_RemoveCustomRateLimit_spec (r : RateLimiter) (s : String) :
    ((∃ e, RemoveCustomRateLimit r s = Except.error e) ↔
       ∀ i ∈ r.customRateLimits, (getRuleA r.ruleArena i).suffix ≠ s) ∧
    (∀ r2, RemoveCustomRateLimit r s = Except.ok r2 →
      (∃ l1 i rest, r.customRateLimits = l1 ++ i :: rest ∧
        (getRuleA r.ruleArena i).suffix = s ∧
        (∀ j ∈ l1, (getRuleA r.ruleArena j).suffix ≠ s) ∧
        r2.customRateLimits = l1 ++ rest) ∧
      r2.ruleArena = r.ruleArena ∧ r2.global = r.global ∧
      (∀ n, r2.buckets.get? n = (r.buckets.get? n).map fun kb =>
        if bucketRuleSuffix r.ruleArena kb.2 = some s
        then (kb.1, { kb.2 with customRateLimit := none }) else kb)) := by
  constructor
  · constructor
    · rintro ⟨e, he⟩
      unfold RemoveCustomRateLimit at he
      cases hr : removeFirst r.ruleArena s r.customRateLimits with
      | none => exact (removeFirst_none_iff r.ruleArena s r.customRateLimits).mp hr
      | some l2 =>
        rw [hr] at he
        exact Except.noConfusion he
    · intro hall
      refine ⟨"err: custom rate limit not found", ?_⟩
      unfold RemoveCustomRateLimit
      rw [(removeFirst_none_iff r.ruleArena s r.customRateLimits).mpr hall]
  · intro r2 hok
    unfold RemoveCustomRateLimit at hok
    cases hr : removeFirst r.ruleArena s r.customRateLimits with
    | none =>
      rw [hr] at hok
      exact Except.noConfusion hok
    | some l2 =>
      rw [hr] at hok
      cases hok
      refine ⟨?_, rfl, rfl, ?_⟩
      · obtain ⟨l1, i, rest, hsplit, hi, hl1, hl2⟩ := removeFirst_some r.ruleArena s _ _ hr
        exact ⟨l1, i, rest, hsplit, hi, hl1, hl2⟩
      · intro n
        rw [List.get?_map]
        cases hkb : r.buckets.get? n with
        | none => rfl
        | some kb =>
          simp only [Option.map_some']
          rw [detach_pointwise]

/-- Concrete limiter used by the C7 witness: two rules, one bucket attached
to each, one unattached. -/
def rC7 : RateLimiter :=
  { global := 3,
    buckets :=
      [("ax", { Key := "ax", remaining := 1, limit := 0, reset := 0, lastReset := 0,
                customRateLimit := some 0, slotHeld := false }),
       ("by", { Key := "by", remaining := 2, limit := 0, reset := 5, lastReset := 0,
                customRateLimit := some 1, slotHeld := false }),
       ("cz", { Key := "cz", remaining := 3, limit := 0, reset := 6, lastReset := 0,
                customRateLimit := none, slotHeld := false })],
    globalRateLimit := 0,
    ruleArena := [{ suffix := "x", requests := 2, reset := 50 },
                  { suffix := "y", requests := 4, reset := 60 }],
    customRateLimits := [0, 1] }

/-- C7 witness at a concrete limiter, removing suffix "x". -/
theorem C7_RemoveCustomRateLimit_spec_witness :
    ((∃ e, RemoveCustomRateLimit rC7 "x" = Except.error e) ↔
       ∀ i ∈ rC7.customRateLimits, (getRuleA rC7.ruleArena i).suffix ≠ "x") ∧
    (∀ r2, RemoveCustomRateLimit rC7 "x" = Except.ok r2 →
      (∃ l1 i rest, rC7.customRateLimits = l1 ++ i :: rest ∧
        (getRuleA rC7.ruleArena i).suffix = "x" ∧
        (∀ j ∈ l1, (getRuleA rC7.ruleArena j).suffix ≠ "x") ∧
        r2.customRateLimits = l1 ++ rest) ∧
      r2.ruleArena = rC7.ruleArena ∧ r2.global = rC7.global ∧
      (∀ n, r2.buckets.get? n = (rC7.buckets.get? n).map fun kb =>
        if bucketRuleSuffix rC7.ruleArena kb.2 = some "x"
        then (kb.1, { kb.2 with customRateLimit := none }) else kb)) :=
  C7_RemoveCustomRateLimit_spec rC7 "x"

theorem listGetD_set_self {α : Type} (l : List α) (i : Nat) (a dflt : α)
    (h : i < l.length) : (l.set i a).getD i dflt = a := by
  induction l generalizing i with
  | nil => simp at h
  | cons x xs ih =>
    cases i with
    | zero => rfl
    | succ n => exact ih n (by simpa using h)

theorem listGetD_set_ne {α : Type} (l : List α) (i j : Nat) (a dflt : α)
    (h : j ≠ i) : (l.set i a).getD j dflt = l.getD j dflt := by
  induction l generalizing i j with
  | nil => rfl
  | cons x xs ih =>
    cases i with
    | zero =>
      cases j with
      | zero => exact absurd rfl h
      | succ m => rfl
    | succ n =>
      cases j with
      | zero => rfl
      | succ m => exact ih n m fun he => h (by rw [he])

theorem listGetD_append_self {α : Type} (l : List α) (a dflt : α) :
    (l ++ [a]).getD l.length dflt = a := by
  induction l with
  | nil => rfl
  | cons x xs ih => exact ih

theorem listGetD_append_lt {α : Type} (l : List α) (a dflt : α) (j : Nat)
    (h : j < l.length) : (l ++ [a]).getD j dflt = l.getD j dflt := by
  induction l generalizing j with
  | nil => simp at h
  | cons x xs ih =>
    cases j with
    | zero => rfl
    | succ m => exact ih m (by simpa using h)

theorem findRuleIdx_some (arena : List customRateLimit) (s : String) :
    ∀ l i, findRuleIdx arena l s = some i → i ∈ l ∧ (getRuleA arena i).suffix = s := by
  intro l
  induction l with
  | nil => intro i hcontra; exact Option.noConfusion hcontra
  | cons j rest ih =>
    intro i hfi
    by_cases hj : (getRuleA arena j).suffix = s
    · simp only [findRuleIdx, if_pos hj] at hfi
      cases hfi
      exact ⟨List.mem_cons_self _ _, hj⟩
    · simp only [findRuleIdx, if_neg hj] at hfi
      obtain ⟨hm, hs⟩ := ih i hfi
      exact ⟨List.mem_cons_of_mem _ hm, hs⟩

/-- C8: `SetCustomRateLimit(suffix, requests, reset)` upserts by suffix.
When a rule with the suffix exists its record is mutated in place — the
registration list keeps the same indices, the arena entry now carries the
new quota and interval (so every bucket referencing that index observes the
new values), other entries are untouched.  When none exists, a fresh rule is
appended.  In both cases every bucket whose key ends with the suffix is
(re)attached to that rule, overwriting any previous attachment, and other
buckets are untouched. -/
theorem C8_SetCustomRateLimit_upsert (r : RateLimiter) (s : String) (q d : Int)
    (hwf : ∀ i ∈ r.customRateLimits, i < r.ruleArena.length) :
    (∀ i, findRuleIdx r.ruleArena r.customRateLimits s = some i →
      (SetCustomRateLimit r s q d).customRateLimits = r.customRateLimits ∧
      getRuleA (SetCustomRateLimit r s q d).ruleArena i =
        { suffix := s, requests := q, reset := d } ∧
      (∀ j, j ≠ i →
        getRuleA (SetCustomRateLimit r s q d).ruleArena j = getRuleA r.ruleArena j) ∧
      (∀ n, (SetCustomRateLimit r s q d).buckets.get? n = (r.buckets.get? n).map fun kb =>
        if goHasSuffix kb.2.Key s then (kb.1, { kb.2 with customRateLimit := some i })
        else kb)) ∧
    (findRuleIdx r.ruleArena r.customRateLimits s = none →
      (SetCustomRateLimit r s q d).customRateLimits =
        r.customRateLimits ++ [r.ruleArena.length] ∧
      getRuleA (SetCustomRateLimit r s q d).ruleArena r.ruleArena.length =
        { suffix := s, requests := q, reset := d } ∧
      (∀ j, j < r.ruleArena.length →
        getRuleA (SetCustomRateLimit r s q d).ruleArena j = getRuleA r.ruleArena j) ∧
      (∀ n, (SetCustomRateLimit r s q d).buckets.get? n = (r.buckets.get? n).map fun kb =>
        if goHasSuffix kb.2.Key s
        then (kb.1, { kb.2 with customRateLimit := some r.ruleArena.length })
        else kb)) := by
  constructor
  · intro i hfi
    obtain ⟨hmem, hsuf⟩ := findRuleIdx_some r.ruleArena s r.customRateLimits i hfi
    have hlen : i < r.ruleArena.length := hwf i hmem
    simp only [SetCustomRateLimit, hfi]
    refine ⟨trivial, ?_, ?_, ?_⟩
    · unfold getRuleA
      rw [listGetD_set_self _ _ _ _ hlen]
      show customRateLimit.mk (getRuleA r.ruleArena i).suffix q d = customRateLimit.mk s q d
      rw [hsuf]
    · intro j hj
      unfold getRuleA
      rw [listGetD_set_ne _ _ _ _ _ hj]
    · intro n
      rw [show (getRuleA r.ruleArena i).suffix = s from hsuf]
      unfold attachMatching
      rw [List.get?_map]
  · intro hfi
    simp only [SetCustomRateLimit, hfi]
    refine ⟨trivial, ?_, ?_, ?_⟩
    · unfold getRuleA
      rw [listGetD_append_self]
    · intro j hj
      unfold getRuleA
      rw [listGetD_append_lt _ _ _ _ hj]
    · intro n
      unfold attachMatching
      rw [List.get?_map]

/-- Concrete limiter used by the C8 witness: one existing rule with suffix
"x" and two buckets, one matching the suffix. -/
def rC8 : RateLimiter :=
  { global := 0,
    buckets :=
      [("ax", { Key := "ax", remaining := 1, limit := 0, reset := 0, lastReset := 0,
                customRateLimit := some 0, slotHeld := false }),
       ("by", { Key := "by", remaining := 2, limit := 0, reset := 5, lastReset := 0,
                customRateLimit := none, slotHeld := false })],
    globalRateLimit := 0,
    ruleArena := [{ suffix := "x", requests := 2, reset := 50 }],
    customRateLimits := [0] }

/-- C8 witness at a concrete limiter, upserting suffix "x". -/
theorem C8_SetCustomRateLimit_upsert_witness :
    (∀ i, findRuleIdx rC8.ruleArena rC8.customRateLimits "x" = some i →
      (SetCustomRateLimit rC8 "x" 7 90).customRateLimits = rC8.customRateLimits ∧
      getRuleA (SetCustomRateLimit rC8 "x" 7 90).ruleArena i =
        { suffix := "x", requests := 7, reset := 90 } ∧
      (∀ j, j ≠ i →
        getRuleA (SetCustomRateLimit rC8 "x" 7 90).ruleArena j = getRuleA rC8.ruleArena j) ∧
      (∀ n, (SetCustomRateLimit rC8 "x" 7 90).buckets.get? n =
        (rC8.buckets.get? n).map fun kb =>
          if goHasSuffix kb.2.Key "x" then (kb.1, { kb.2 with customRateLimit := some i })
          else kb)) ∧
    (findRuleIdx rC8.ruleArena rC8.customRateLimits "x" = none →
      (SetCustomRateLimit rC8 "x" 7 90).customRateLimits =
        rC8.customRateLimits ++ [rC8.ruleArena.length] ∧
      getRuleA (SetCustomRateLimit rC8 "x" 7 90).ruleArena rC8.ruleArena.length =
        { suffix := "x", requests := 7, reset := 90 } ∧
      (∀ j, j < rC8.ruleArena.length →
        getRuleA (SetCustomRateLimit rC8 "x" 7 90).ruleArena j = getRuleA rC8.ruleArena j) ∧
      (∀ n, (SetCustomRateLimit rC8 "x" 7 90).buckets.get? n =
        (rC8.buckets.get? n).map fun kb =>
          if goHasSuffix kb.2.Key "x"
          then (kb.1, { kb.2 with customRateLimit := some rC8.ruleArena.length })
          else kb)) :=
  C8_SetCustomRateLimit_upsert rC8 "x" 7 90 (by decide)

theorem firstMatchingRule_cases (arena : List customRateLimit) (key : String)
    (l : List Nat) :
    (firstMatchingRule arena key l = none ∧
       ∀ i ∈ l, goHasSuffix key (getRuleA arena i).suffix = false) ∨
    (∃ l1 i rest, l = l1 ++ i :: rest ∧ firstMatchingRule arena key l = some i ∧
       goHasSuffix key (getRuleA arena i).suffix = true ∧
       ∀ j ∈ l1, goHasSuffix key (getRuleA arena j).suffix = false) := by
  induction l with
  | nil => exact Or.inl ⟨rfl, by simp⟩
  | cons i rest ih =>
    by_cases hi : goHasSuffix key (getRuleA arena i).suffix = true
    · exact Or.inr ⟨[], i, rest, rfl, by simp [firstMatchingRule, hi], hi, by simp⟩
    · have hif : firstMatchingRule arena key (i :: rest) = firstMatchingRule arena key rest := by
        simp [firstMatchingRule, hi]
      rcases ih with ⟨hn, hall⟩ | ⟨l1, j, tl, hsplit, hfind, hj, hl1⟩
      · refine Or.inl ⟨by rw [hif, hn], ?_⟩
        intro k hk
        rcases List.mem_cons.mp hk with rfl | hk
        · simpa using hi
        · exact hall k hk
      · refine Or.inr ⟨i :: l1, j, tl, by simp [hsplit], by rw [hif, hfind], hj, ?_⟩
        intro k hk
        rcases List.mem_cons.mp hk with rfl | hk
        · simpa using hi
        · exact hl1 k hk

theorem lookup_append_self (bs : List (String × Bucket)) (key : String) (b : Bucket)
    (h : bs.lookup key = none) : (bs ++ [(key, b)]).lookup key = some b := by
  induction bs with
  | nil => simp [List.lookup]
  | cons kb rest ih =>
    by_cases hk : (key == kb.1) = true
    · simp [List.lookup, hk] at h
    · simp only [List.cons_append, List.lookup, hk] at h ⊢
      exact ih h

/-- C9: `getBucket` returns the registered bucket and an unchanged limiter
when the key is known — so a repeated lookup yields the same single
instance — and on first lookup it appends a fresh bucket for the key whose
attachment is the first rule, in registration order, whose suffix matches
the key (no rule when none matches). -/
theorem C9_getBucket_registry (r : RateLimiter) (key : String) :
    (∀ b, r.buckets.lookup key = some b → getBucket r key = (r, b)) ∧
    getBucket (getBucket r key).1 key = ((getBucket r key).1, (getBucket r key).2) ∧
    (r.buckets.lookup key = none →
      (getBucket r key).2.Key = key ∧
      (getBucket r key).1.buckets = r.buckets ++ [(key, (getBucket r key).2)] ∧
      (((getBucket r key).2.customRateLimit = none ∧
          ∀ i ∈ r.customRateLimits, goHasSuffix key (getRuleA r.ruleArena i).suffix = false) ∨
       (∃ l1 i rest, r.customRateLimits = l1 ++ i :: rest ∧
          (getBucket r key).2.customRateLimit = some i ∧
          goHasSuffix key (getRuleA r.ruleArena i).suffix = true ∧
          ∀ j ∈ l1, goHasSuffix key (getRuleA r.ruleArena j).suffix = false))) := by
  have hsome : ∀ b, r.buckets.lookup key = some b → getBucket r key = (r, b) := by
    intro b hb
    unfold getBucket
    rw [hb]
  refine ⟨hsome, ?_, ?_⟩
  · cases hl : r.buckets.lookup key with
    | some b =>
      rw [hsome b hl]
      exact hsome b hl
    | none =>
      have hb : getBucket r key =
          ({ r with buckets := r.buckets ++
              [(key, { Key := key, remaining := 1, limit := 0, reset := 0, lastReset := 0,
                       customRateLimit := firstMatchingRule r.ruleArena key r.customRateLimits,
                       slotHeld := false })] },
           { Key := key, remaining := 1, limit := 0, reset := 0, lastReset := 0,
             customRateLimit := firstMatchingRule r.ruleArena key r.customRateLimits,
             slotHeld := false }) := by
        unfold getBucket
        rw [hl]
      rw [hb]
      unfold getBucket
      rw [lookup_append_self r.buckets key _ hl]
  · intro hl
    have hb : getBucket r key =
        ({ r with buckets := r.buckets ++
            [(key, { Key := key, remaining := 1, limit := 0, reset := 0, lastReset := 0,
                     customRateLimit := firstMatchingRule r.ruleArena key r.customRateLimits,
                     slotHeld := false })] },
         { Key := key, remaining := 1, limit := 0, reset := 0, lastReset := 0,
           customRateLimit := firstMatchingRule r.ruleArena key r.customRateLimits,
           slotHeld := false }) := by
      unfold getBucket
      rw [hl]
    rw [hb]
    refine ⟨rfl, rfl, ?_⟩
    rcases firstMatchingRule_cases r.ruleArena key r.customRateLimits with
      ⟨hn, hall⟩ | ⟨l1, i, rest, hsplit, hfind, hi, hl1⟩
    · exact Or.inl ⟨hn, hall⟩
    · exact Or.inr ⟨l1, i, rest, hsplit, hfind, hi, hl1⟩

/-- Concrete limiter used by the C9 witness: one known bucket and two rules. -/
def rC9 : RateLimiter :=
  { global := 0,
    buckets :=
      [("known", { Key := "known", remaining := 4, limit := 0, reset := 2, lastReset := 0,
                   customRateLimit := none, slotHeld := false })],
    globalRateLimit := 0,
    ruleArena := [{ suffix := "sfx", requests := 2, reset := 50 },
                  { suffix := "x", requests := 3, reset := 60 }],
    customRateLimits := [0, 1] }

/-- C9 witness at a concrete limiter and a fresh key "abcx" matched by the
second rule. -/
theorem C9_getBucket_registry_witness :
    (∀ b, rC9.buckets.lookup "abcx" = some b → getBucket rC9 "abcx" = (rC9, b)) ∧
    getBucket (getBucket rC9 "abcx").1 "abcx" =
      ((getBucket rC9 "abcx").1, (getBucket rC9 "abcx").2) ∧
    (rC9.buckets.lookup "abcx" = none →
      (getBucket rC9 "abcx").2.Key = "abcx" ∧
      (getBucket rC9 "abcx").1.buckets =
        rC9.buckets ++ [("abcx", (getBucket rC9 "abcx").2)] ∧
      (((getBucket rC9 "abcx").2.customRateLimit = none ∧
          ∀ i ∈ rC9.customRateLimits,
            goHasSuffix "abcx" (getRuleA rC9.ruleArena i).suffix = false) ∨
       (∃ l1 i rest, rC9.customRateLimits = l1 ++ i :: rest ∧
          (getBucket rC9 "abcx").2.customRateLimit = some i ∧
          goHasSuffix "abcx" (getRuleA rC9.ruleArena i).suffix = true ∧
          ∀ j ∈ l1, goHasSuffix "abcx" (getRuleA rC9.ruleArena j).suffix = false))) :=
  C9_getBucket_registry rC9 "abcx"

end Discordgo
